import Mathlib

/-!
Verification of the Overpass API python wrapper against its specification.

The definitions below are a shallow embedding of `overpass/api.py` and
`overpass/helpers.py`.  Floating point coordinates are modelled as rationals
(the code only ever compares squared distances against zero, which over the
rationals coincides with coordinate equality).  Python dict/list mutation in
`API._as_geojson` is modelled by explicit state passing: the converter returns
both the produced features and the post-conversion elements list.
-/

namespace Overpass

/-- A coordinate pair; the code always keeps [lon, lat] order. -/
structure Coord where
  lon : Rat
  lat : Rat
deriving DecidableEq, Repr

/-- Squared euclidean distance, as computed at api.py lines 209-240. -/
def sqDist (a b : Coord) : Rat :=
  (a.lon - b.lon) ^ 2 + (a.lat - b.lat) ^ 2

/-- `g[0]` of a member geometry (api.py `mem["geometry"][0]`).  The default is
only reached for an empty geometry, where the python code would raise. -/
def firstPt (g : List Coord) : Coord := g.headD ⟨0, 0⟩

/-- `g[-1]` of a member geometry (api.py `mem["geometry"][-1]`). -/
def lastPt (g : List Coord) : Coord := g.getLastD ⟨0, 0⟩

/-- Tag values: OSM tag values are strings; the injected `id` property
(api.py line 305) is the numeric element id. -/
inductive TagValue where
  | str (s : String)
  | num (n : Int)
deriving DecidableEq, Repr

/-- A python dict of tags, modelled as an insertion-ordered association list
without duplicate keys. -/
abbrev TagMap := List (String × TagValue)

/-- `d.update(k = v)` on a python dict: replace the value in place if the key
exists, otherwise append the binding. -/
def updateTag (t : TagMap) (k : String) (v : TagValue) : TagMap :=
  if t.any (fun p => p.1 = k) then
    t.map (fun p => if p.1 = k then (k, v) else p)
  else
    t ++ [(k, v)]

/-- `poly_props.update(dict(id = elem_id))` at api.py line 305. -/
def updateTagId (t : TagMap) (elemId : Int) : TagMap :=
  updateTag t "id" (.num elemId)

/-- One relation member: a role string and a way-segment geometry. -/
structure Member where
  role : String
  geometry : List Coord
deriving DecidableEq, Repr

/-- `mem["geometry"] = list(reversed(mem["geometry"]))` (api.py 217 etc.). -/
def Member.rev (m : Member) : Member :=
  { m with geometry := m.geometry.reverse }

/-- A raw Overpass element.  `unknown` stands for any `type` other than
node/way/relation, which the dispatch at api.py lines 172-193 ignores. -/
inductive Element where
  | node (id : Int) (lon lat : Rat) (tags : Option TagMap)
  | way (id : Int) (geometry : List Coord) (tags : Option TagMap)
  | relation (id : Int) (members : List Member) (tags : Option TagMap)
  | unknown
deriving DecidableEq, Repr

/-- Inputs on which the python code runs without raising: every relation
member carries at least one coordinate (otherwise `mem["geometry"][0]` or
`points[-1]` raises IndexError) and every relation has a tags dict
(otherwise `poly_props.update` raises on None). -/
def Element.wf : Element → Prop
  | .relation _ ms tags => (∀ m ∈ ms, m.geometry ≠ []) ∧ tags ≠ none
  | _ => True

instance : (e : Element) → Decidable e.wf
  | .node _ _ _ _ => .isTrue trivial
  | .way _ _ _ => .isTrue trivial
  | .relation _ ms tags =>
      inferInstanceAs (Decidable ((∀ m ∈ ms, m.geometry ≠ []) ∧ tags ≠ none))
  | .unknown => .isTrue trivial

/-- Well-formedness of a whole elements list. -/
def WFElems (es : List Element) : Prop := ∀ e ∈ es, e.wf

instance (es : List Element) : Decidable (WFElems es) :=
  inferInstanceAs (Decidable (∀ e ∈ es, e.wf))

/-- A ring, as assembled by the relation branch. -/
abbrev Ring := List Coord

/-- Output geometries: Point for nodes, LineString for ways, MultiPolygon for
relation polygon groups (api.py lines 175, 186, 309). -/
inductive Geometry where
  | point (c : Coord)
  | lineString (ps : List Coord)
  | multiPolygon (coords : List (List Ring))
deriving DecidableEq, Repr

/-- An output feature.  Node/way features are built with `geojson.Feature(id = ...)`;
the relation multipolygon dict (api.py lines 306-310) has no top-level id,
hence `id?` is `none` there. -/
structure Feature where
  id? : Option Int
  geometry : Geometry
  properties : Option TagMap
deriving DecidableEq, Repr

structure FeatureCollection where
  features : List Feature
deriving DecidableEq, Repr

/-! ### The relation ring-assembly loop (api.py lines 193-313) -/

/-- Mutable loop state of the relation branch: `polygons`, `poly`, `points`,
`prev`, `not_first` (api.py lines 194-200).  The global `no_match_count` is
threaded separately. -/
structure LoopState where
  polygons : List (List Ring)
  poly : List Ring
  points : List Coord
  prev : String
  notFirst : Bool
deriving DecidableEq, Repr

/-- Initial state at api.py lines 195-200. -/
def initLoopState : LoopState :=
  { polygons := [], poly := [], points := [], prev := "inner", notFirst := false }

/-- The lookahead scan at api.py lines 233-253: find the first later member
one of whose endpoints coincides with `tgt` (= `points[-1]`).  Returns the
members before it, the member, whether its matching endpoint was the last one
(then its geometry gets reversed), and the members after it. -/
def scanMatch (tgt : Coord) : List Member → Option (List Member × Member × Bool × List Member)
  | [] => none
  | c :: rest =>
    if sqDist (firstPt c.geometry) tgt = 0 ∨ sqDist (lastPt c.geometry) tgt = 0 then
      some ([], c, decide (sqDist (lastPt c.geometry) tgt = 0), rest)
    else
      (scanMatch tgt rest).map (fun q => (c :: q.1, q.2.1, q.2.2.1, q.2.2.2))

/-- The adjacency step at api.py lines 208-258, entered only when `points` is
non-empty.  Returns `none` for the no-match skip (api.py lines 255-258), or
the member to consume (in consumption orientation, which is also how it is
stored back), the possibly reversed `points`, and the remaining members after
the possible swap (api.py lines 245-248). -/
def adjacencyStep (pts : List Coord) (m : Member) (todo : List Member) :
    Option (Member × List Coord × List Member) :=
  if sqDist (lastPt pts) (firstPt m.geometry) = 0 then
    some (m, pts, todo)
  else if sqDist (lastPt pts) (lastPt m.geometry) = 0 then
    some (m.rev, pts, todo)
  else if sqDist (firstPt pts) (firstPt m.geometry) = 0 then
    some (m, pts.reverse, todo)
  else if sqDist (firstPt pts) (lastPt m.geometry) = 0 then
    some (m.rev, pts.reverse, todo)
  else
    match scanMatch (lastPt pts) todo with
    | some (pre, f, b, post) =>
        some (if b then f.rev else f, pts, pre ++ m :: post)
    | none => none

/-- Consumption of one member's geometry, api.py lines 260-296: the two
sequential role tests (`outer` then `inner`), ring closure checks
(`points[-1] == points[0]`), the poly flush, and `not_first = True`. -/
def consumeMember (s : LoopState) (m : Member) : LoopState :=
  let s1 :=
    if m.role = "outer" then
      let pts0 := if s.prev = "inner" then ([] : List Coord) else s.points
      let flush := pts0 = [] ∧ s.notFirst = true
      let pgs := if flush then s.polygons ++ [s.poly] else s.polygons
      let pl := if flush then ([] : List Ring) else s.poly
      let pts := pts0 ++ m.geometry
      if lastPt pts = firstPt pts then
        { s with polygons := pgs, poly := pl ++ [pts], points := [], prev := "outer" }
      else
        { s with polygons := pgs, poly := pl, points := pts, prev := "outer" }
    else s
  let s2 :=
    if m.role = "inner" then
      let pts := s1.points ++ m.geometry
      if lastPt pts = firstPt pts then
        { s1 with poly := s1.poly ++ [pts], points := [], prev := "inner" }
      else
        { s1 with points := pts, prev := "inner" }
    else s1
  { s2 with notFirst := true }

/-- The member loop (api.py lines 202-296) with explicit fuel; the wrapper
`processMembers` supplies fuel equal to the list length, which every
recursive call preserves, so the fuel-exhausted branch is never reached.
Returns the final state, the post-loop members list (with the in-place
reversals and swaps applied), and the number of skipped members
(`no_match_count` increments, api.py line 256). -/
def goMembers : Nat → LoopState → List Member → LoopState × List Member × Nat
  | _, s, [] => (s, [], 0)
  | 0, s, ms => (s, ms, 0)
  | fuel + 1, s, m :: todo =>
    if s.points = [] then
      let r := goMembers fuel (consumeMember s m) todo
      (r.1, m :: r.2.1, r.2.2)
    else
      match adjacencyStep s.points m todo with
      | some (mEff, pts', todo') =>
          let r := goMembers fuel (consumeMember { s with points := pts' } mEff) todo'
          (r.1, mEff :: r.2.1, r.2.2)
      | none =>
          let r := goMembers fuel s todo
          (r.1, m :: r.2.1, r.2.2 + 1)

def processMembers (s : LoopState) (ms : List Member) : LoopState × List Member × Nat :=
  goMembers ms.length s ms

/-- Result of converting one relation. -/
structure RelOut where
  features : List Feature
  members : List Member
  tags : Option TagMap
  skipped : Nat
deriving Repr

/-- The relation branch, api.py lines 193-313: run the member loop, append the
final `poly`, and unless `polygons == [[]]` emit one MultiPolygon feature per
polygon group, with the relation's tags dict mutated by injecting `id`. -/
def processRelation (elemId : Int) (tags : Option TagMap) (ms : List Member) : RelOut :=
  let r := processMembers initLoopState ms
  let polygons := r.1.polygons ++ [r.1.poly]
  if polygons = [[]] then
    { features := [], members := r.2.1, tags := tags, skipped := r.2.2 }
  else
    let props := updateTagId (tags.getD []) elemId
    { features := polygons.map (fun outerPoly =>
        { id? := none, geometry := .multiPolygon [outerPoly], properties := some props }),
      members := r.2.1,
      tags := tags.map (fun t => updateTagId t elemId),
      skipped := r.2.2 }

/-- Result of converting one element: its features, its post-conversion value
(reflecting the in-place mutations), and its skip count contribution. -/
structure ElemOut where
  features : List Feature
  post : Element
  skipped : Nat
deriving Repr

/-- Per-element dispatch of `_as_geojson` (api.py lines 172-313). -/
def elemConvert : Element → ElemOut
  | .node i lon lat tags =>
      { features := [{ id? := some i, geometry := .point ⟨lon, lat⟩, properties := tags }],
        post := .node i lon lat tags, skipped := 0 }
  | .way i g tags =>
      { features := [{ id? := some i, geometry := .lineString g, properties := tags }],
        post := .way i g tags, skipped := 0 }
  | .relation i ms tags =>
      let r := processRelation i tags ms
      { features := r.features, post := .relation i r.members r.tags, skipped := r.skipped }
  | .unknown => { features := [], post := .unknown, skipped := 0 }

def featuresOf (e : Element) : List Feature := (elemConvert e).features

def elemPost (e : Element) : Element := (elemConvert e).post

/-- Result of the whole conversion: the FeatureCollection (api.py line 315),
the post-conversion elements, and the total `no_match_count`. -/
structure ConvResult where
  fc : FeatureCollection
  elements : List Element
  skipped : Nat
deriving Repr

/-- `API._as_geojson`, with the state it mutates made explicit. -/
def asGeojsonFull (es : List Element) : ConvResult :=
  { fc := ⟨((es.map elemConvert).map ElemOut.features).flatten⟩,
    elements := (es.map elemConvert).map ElemOut.post,
    skipped := ((es.map elemConvert).map ElemOut.skipped).sum }

/-- The FeatureCollection produced by `API._as_geojson`. -/
def asGeojson (es : List Element) : FeatureCollection := (asGeojsonFull es).fc

/-! ### Query construction (api.py lines 119-135) -/

/-- Python `str.rstrip()`: drop trailing whitespace. -/
def rstrip (s : String) : String :=
  String.mk (s.data.reverse.dropWhile Char.isWhitespace).reverse

/-- Python `s.endswith(suffix)`, computed structurally on the characters. -/
def strEndsWith (s suffix : String) : Bool :=
  suffix.data.isSuffixOf s.data

/-- Python `s.startswith(pre)`, computed structurally on the characters. -/
def strStartsWith (s pre : String) : Bool :=
  pre.data.isPrefixOf s.data

/-- `API._construct_ql_query` (api.py lines 119-135): trailing whitespace is
stripped, a terminator is appended when missing, and the result is wrapped in
`_QUERY_TEMPLATE` / `_GEOJSON_QUERY_TEMPLATE` (api.py lines 34-35); for the
geojson format the wire format is the literal `json`, the `verbosity`
argument is spliced unchanged in both templates. -/
def construct_ql_query (userquery responseformat verbosity : String) : String :=
  let raw := rstrip userquery
  let raw := if strEndsWith raw ";" then raw else raw ++ ";"
  if responseformat = "geojson" then
    "[out:json];" ++ raw ++ "out " ++ verbosity ++ ";"
  else
    "[out:" ++ responseformat ++ "];" ++ raw ++ "out " ++ verbosity ++ ";"

/-! ### Transport (api.py lines 137-166) and the errors module

`overpass/errors.py` is not under src/; the error classes and the payloads
they carry are taken from the import list (api.py lines 12-19) and from the
raise sites. -/

inductive OverpassErr where
  | OverpassSyntaxError (query : String)
  | TimeoutError (timeout : Nat)
  | MultipleRequestsError
  | ServerLoadError (timeout : Nat)
  | UnknownOverpassError (msg : String)
  | ServerRuntimeError (remark : String)
deriving DecidableEq, Repr

instance {ε α : Type} [DecidableEq ε] [DecidableEq α] : DecidableEq (Except ε α)
  | .ok a, .ok b =>
      if h : a = b then .isTrue (by rw [h]) else
        .isFalse (fun he => by cases he; exact h rfl)
  | .ok _, .error _ => .isFalse (fun he => by cases he)
  | .error _, .ok _ => .isFalse (fun he => by cases he)
  | .error e, .error f =>
      if h : e = f then .isTrue (by rw [h]) else
        .isFalse (fun he => by cases he; exact h rfl)

/-- The outcome of the POST at api.py lines 141-147: either the request timed
out or a response with some status code and body came back. -/
inductive TransportEvent where
  | timeout
  | response (status : Nat) (body : String)
deriving DecidableEq, Repr

/-- The class attribute `API._timeout = 25` (api.py line 28).  `__init__`
assigns the configured value to `self.timeout` only, so `self._timeout`
always resolves to this class attribute. -/
def API_timeout : Nat := 25

/-- Instance configuration: `self.timeout` as set in `__init__` (api.py
line 40). -/
structure APIConfig where
  timeout : Nat
deriving DecidableEq, Repr

/-- `API._get_from_overpass` (api.py lines 137-166): the request itself uses
`self.timeout` (= `cfg.timeout`), but both error payloads use
`self._timeout` (= the class attribute `API_timeout`). -/
def get_from_overpass (cfg : APIConfig) (query : String) (ev : TransportEvent) :
    Except OverpassErr String :=
  match ev with
  | .timeout => .error (.TimeoutError API_timeout)
  | .response status body =>
    if status ≠ 200 then
      if status = 400 then .error (.OverpassSyntaxError query)
      else if status = 429 then .error .MultipleRequestsError
      else if status = 504 then .error (.ServerLoadError API_timeout)
      else .error (.UnknownOverpassError
        ("The request returned status code " ++ toString status))
    else .ok body

/-! ### JSON response validation in `API.get` (api.py lines 89-109) -/

/-- A parsed `application/json` response document: the optional top-level
`elements` and `remark` keys. -/
structure OverpassResponse where
  elements : Option (List Element)
  remark : Option String
deriving DecidableEq, Repr

/-- What `API.get` returns on the json path: the parsed document, or the
synthesized FeatureCollection when geojson was requested. -/
inductive GetResult where
  | raw (resp : OverpassResponse)
  | geo (fc : FeatureCollection)
deriving DecidableEq, Repr

/-- The json branch of `API.get` after parsing (api.py lines 92-109).
`if not build: return response`; then the `elements` presence check, then the
`remark` check (`overpass_remark and overpass_remark.startswith("runtime
error")`: python truthiness of the string is equivalent to it being
non-empty).  The final dispatch `responseformat is not "geojson"` is an
identity comparison in the source; it is modelled as string inequality. -/
def get_json_body (responseformat : String) (build : Bool) (resp : OverpassResponse) :
    Except OverpassErr GetResult :=
  if build = false then .ok (.raw resp)
  else
    match resp.elements with
    | none => .error (.UnknownOverpassError "Received an invalid answer from Overpass.")
    | some es =>
      let finish : Except OverpassErr GetResult :=
        if responseformat ≠ "geojson" then .ok (.raw resp) else .ok (.geo (asGeojson es))
      match resp.remark with
      | some r =>
        if r ≠ "" ∧ strStartsWith r "runtime error" then .error (.ServerRuntimeError r)
        else finish
      | none => finish

/-! ### Nominatim lookup (helpers.py lines 11-22) -/

/-- One entry of the Nominatim result list.  The `importance` field is
modelled as present (the claims only concern results whose importance is
comparable with the confidence threshold). -/
structure NominatimResult where
  importance : Rat
  osm_id : Int
deriving DecidableEq, Repr

namespace Nominatim

/-- `Nominatim.min_confidence = 0.8` (helpers.py line 9). -/
def min_confidence : Rat := 8 / 10

/-- `Nominatim.lookup` (helpers.py lines 11-22) applied to the decoded result
list: return the first result whose importance reaches the threshold, and
the empty dict (`none`) when the loop exhausts the list. -/
def lookup : List NominatimResult → Option NominatimResult
  | [] => none
  | r :: rest => if min_confidence ≤ r.importance then some r else lookup rest

end Nominatim

/-! ### Area injection (spec-modelled)

The property-style wrapper variant that owns the area-id rewrite is not under
src/ (only src/tests/test_api.py exercises it, via `api.area` and
`api.raw_query`). -/

/-- Modelled from the spec: missing is the area-injection rewrite of the
property-based wrapper variant.  Per the spec it "rewrites every top-level
`node`/`way`/`relation` selector clause in the fragment to scope it with
`(area:<id>)` via a structural text substitution (matches the selector
keyword plus everything up to the next terminator, appends the area filter
before the terminator)".  A fragment is modelled as its terminator-separated
clause list; a clause is a top-level selector clause when it starts with one
of the three selector keywords. -/
def isSelectorClause (c : String) : Bool :=
  strStartsWith c "node" || strStartsWith c "way" || strStartsWith c "relation"

/-- Modelled from the spec: the structural substitution appending
`(area:<id>)` before each selector clause's terminator. -/
def injectArea (areaId : Nat) (clauses : List String) : List String :=
  clauses.map (fun c =>
    if isSelectorClause c then c ++ "(area:" ++ toString areaId ++ ")" else c)

/-- Re-join clauses, restoring the terminator after each clause. -/
def joinClauses (cs : List String) : String :=
  cs.foldr (fun c acc => c ++ ";" ++ acc) ""

/-- Modelled from the spec: format wrapping of the rewritten fragment (the
geojson wrapping with wire format `json`, as in `_GEOJSON_QUERY_TEMPLATE`). -/
def wrapQuery (q verbosity : String) : String :=
  "[out:json];" ++ q ++ "out " ++ verbosity ++ ";"

/-- Modelled from the spec: the full build with an area id set — the area
rewrite runs first, format wrapping is applied to its output. -/
def buildQueryWithArea (areaId : Nat) (clauses : List String) (verbosity : String) : String :=
  wrapQuery (joinClauses (injectArea areaId clauses)) verbosity

/-! ## Helper lemmas about endpoints, the scan, and the adjacency step -/

theorem headD_eq_head? (l : List Coord) (d : Coord) : l.headD d = (l.head?).getD d := by
  cases l <;> rfl

theorem firstPt_eq_head? (l : List Coord) (h : l ≠ []) : l.head? = some (firstPt l) := by
  cases l with
  | nil => exact absurd rfl h
  | cons a t => rfl

theorem lastPt_eq_getLast? (l : List Coord) (h : l ≠ []) : l.getLast? = some (lastPt l) := by
  rw [lastPt, List.getLastD_eq_getLast?]
  cases hl : l.getLast? with
  | none => exact absurd (List.getLast?_eq_none_iff.mp hl) h
  | some a => rfl

theorem firstPt_reverse (l : List Coord) : firstPt l.reverse = lastPt l := by
  rw [firstPt, headD_eq_head?, List.head?_reverse, lastPt, List.getLastD_eq_getLast?]

theorem lastPt_reverse (l : List Coord) : lastPt l.reverse = firstPt l := by
  rw [lastPt, List.getLastD_eq_getLast?, List.getLast?_reverse, firstPt, headD_eq_head?]

theorem sqDist_comm (a b : Coord) : sqDist a b = sqDist b a := by
  unfold sqDist
  ring

theorem Member.rev_geometry (m : Member) : m.rev.geometry = m.geometry.reverse := rfl

theorem Member.firstPt_rev (m : Member) : firstPt m.rev.geometry = lastPt m.geometry :=
  firstPt_reverse m.geometry

theorem Member.lastPt_rev (m : Member) : lastPt m.rev.geometry = firstPt m.geometry :=
  lastPt_reverse m.geometry

/-- Shape of a successful lookahead scan: the scanned list splits around the
found member, whose endpoints satisfy the match condition, with the reversal
flag recording exactly whether its last endpoint was the match. -/
theorem scanMatch_eq_some (tgt : Coord) :
    ∀ (ls pre post : List Member) (f : Member) (b : Bool),
      scanMatch tgt ls = some (pre, f, b, post) →
      ls = pre ++ f :: post
      ∧ b = decide (sqDist (lastPt f.geometry) tgt = 0)
      ∧ (sqDist (firstPt f.geometry) tgt = 0 ∨ sqDist (lastPt f.geometry) tgt = 0) := by
  intro ls
  induction ls with
  | nil => intro pre post f b h; exact absurd h (by simp [scanMatch])
  | cons c rest ih =>
    intro pre post f b h
    rw [scanMatch] at h
    by_cases hc : sqDist (firstPt c.geometry) tgt = 0 ∨ sqDist (lastPt c.geometry) tgt = 0
    · rw [if_pos hc] at h
      simp only [Option.some.injEq, Prod.mk.injEq] at h
      obtain ⟨hpre, hf, hb, hpost⟩ := h
      subst hpre; subst hf; subst hb; subst hpost
      exact ⟨rfl, rfl, hc⟩
    · rw [if_neg hc] at h
      cases hs : scanMatch tgt rest with
      | none => rw [hs] at h; cases h
      | some q =>
        obtain ⟨pre0, f0, b0, post0⟩ := q
        rw [hs] at h
        simp only [Option.map_some', Option.some.injEq, Prod.mk.injEq] at h
        obtain ⟨hpre, hf, hb, hpost⟩ := h
        obtain ⟨hsplit, hbval, hcond⟩ := ih pre0 post0 f0 b0 hs
        subst hpre; subst hf; subst hb; subst hpost
        refine ⟨?_, hbval, hcond⟩
        rw [hsplit]
        rfl

/-- A failed scan means no remaining member has an endpoint at `tgt`. -/
theorem scanMatch_eq_none_iff (tgt : Coord) (ls : List Member) :
    scanMatch tgt ls = none
      ↔ ∀ c ∈ ls, sqDist (firstPt c.geometry) tgt ≠ 0 ∧ sqDist (lastPt c.geometry) tgt ≠ 0 := by
  induction ls with
  | nil => simp [scanMatch]
  | cons c rest ih =>
    rw [scanMatch]
    by_cases hc : sqDist (firstPt c.geometry) tgt = 0 ∨ sqDist (lastPt c.geometry) tgt = 0
    · rw [if_pos hc]
      refine iff_of_false (by simp) ?_
      intro hall
      obtain hc | hc := hc
      · exact (hall c (List.mem_cons_self c rest)).1 hc
      · exact (hall c (List.mem_cons_self c rest)).2 hc
    · rw [if_neg hc]
      obtain ⟨hca, hcb⟩ := not_or.mp hc
      rw [Option.map_eq_none', ih, List.forall_mem_cons]
      exact ⟨fun h => ⟨⟨hca, hcb⟩, h⟩, fun h => h.2⟩

/-- The adjacency step skips (returns `none`) exactly under the no-match
condition of the source: neither endpoint of the member matches the end of
the accumulated points, neither matches their start, and no remaining member
has an endpoint at the accumulated end. -/
def NoAdjMatch (pts : List Coord) (m : Member) (todo : List Member) : Prop :=
  sqDist (lastPt pts) (firstPt m.geometry) ≠ 0
  ∧ sqDist (lastPt pts) (lastPt m.geometry) ≠ 0
  ∧ sqDist (firstPt pts) (firstPt m.geometry) ≠ 0
  ∧ sqDist (firstPt pts) (lastPt m.geometry) ≠ 0
  ∧ ∀ c ∈ todo, sqDist (firstPt c.geometry) (lastPt pts) ≠ 0
      ∧ sqDist (lastPt c.geometry) (lastPt pts) ≠ 0

instance (pts : List Coord) (m : Member) (todo : List Member) :
    Decidable (NoAdjMatch pts m todo) :=
  inferInstanceAs (Decidable (_ ∧ _ ∧ _ ∧ _ ∧ ∀ c ∈ todo, _ ∧ _))

theorem adjacencyStep_eq_none_iff (pts : List Coord) (m : Member) (todo : List Member) :
    adjacencyStep pts m todo = none ↔ NoAdjMatch pts m todo := by
  unfold adjacencyStep NoAdjMatch
  by_cases h1 : sqDist (lastPt pts) (firstPt m.geometry) = 0
  · simp [h1]
  · rw [if_neg h1]
    by_cases h2 : sqDist (lastPt pts) (lastPt m.geometry) = 0
    · simp [h2]
    · rw [if_neg h2]
      by_cases h3 : sqDist (firstPt pts) (firstPt m.geometry) = 0
      · simp [h3]
      · rw [if_neg h3]
        by_cases h4 : sqDist (firstPt pts) (lastPt m.geometry) = 0
        · simp [h4]
        · rw [if_neg h4]
          cases hs : scanMatch (lastPt pts) todo with
          | none =>
            exact iff_of_true rfl
              ⟨h1, h2, h3, h4, (scanMatch_eq_none_iff (lastPt pts) todo).mp hs⟩
          | some q =>
            obtain ⟨pre, f, b, post⟩ := q
            refine iff_of_false (by simp) ?_
            rintro ⟨-, -, -, -, hall⟩
            obtain ⟨hsplit, -, hcond⟩ := scanMatch_eq_some (lastPt pts) todo pre post f b hs
            have hf : f ∈ todo := by
              rw [hsplit]
              exact List.mem_append_right pre (List.mem_cons_self f post)
            obtain hcond | hcond := hcond
            · exact (hall f hf).1 hcond
            · exact (hall f hf).2 hcond

/-- Re-running the adjacency step on the member it produced, from the same
state, consumes that member as-is with the same points outcome: this is what
makes the loop stable under a second pass. -/
theorem adjacencyStep_restep (pts : List Coord) (m : Member) (todo : List Member)
    (mEff : Member) (pts' : List Coord) (todo' : List Member)
    (h : adjacencyStep pts m todo = some (mEff, pts', todo')) (todo₂ : List Member) :
    adjacencyStep pts mEff todo₂ = some (mEff, pts', todo₂) := by
  unfold adjacencyStep at h
  by_cases h1 : sqDist (lastPt pts) (firstPt m.geometry) = 0
  · rw [if_pos h1] at h
    simp only [Option.some.injEq, Prod.mk.injEq] at h
    obtain ⟨hm, hp, -⟩ := h
    subst hm; subst hp
    unfold adjacencyStep
    rw [if_pos h1]
  · rw [if_neg h1] at h
    by_cases h2 : sqDist (lastPt pts) (lastPt m.geometry) = 0
    · rw [if_pos h2] at h
      simp only [Option.some.injEq, Prod.mk.injEq] at h
      obtain ⟨hm, hp, -⟩ := h
      subst hm; subst hp
      unfold adjacencyStep
      rw [if_pos (by rw [Member.firstPt_rev]; exact h2)]
    · rw [if_neg h2] at h
      by_cases h3 : sqDist (firstPt pts) (firstPt m.geometry) = 0
      · rw [if_pos h3] at h
        simp only [Option.some.injEq, Prod.mk.injEq] at h
        obtain ⟨hm, hp, -⟩ := h
        subst hm; subst hp
        unfold adjacencyStep
        rw [if_neg h1, if_neg h2, if_pos h3]
      · rw [if_neg h3] at h
        by_cases h4 : sqDist (firstPt pts) (lastPt m.geometry) = 0
        · rw [if_pos h4] at h
          simp only [Option.some.injEq, Prod.mk.injEq] at h
          obtain ⟨hm, hp, -⟩ := h
          subst hm; subst hp
          unfold adjacencyStep
          rw [if_neg (by rw [Member.firstPt_rev]; exact h2),
              if_neg (by rw [Member.lastPt_rev]; exact h1),
              if_pos (by rw [Member.firstPt_rev]; exact h4)]
        · rw [if_neg h4] at h
          cases hs : scanMatch (lastPt pts) todo with
          | none => rw [hs] at h; cases h
          | some q =>
            obtain ⟨pre, f, b, post⟩ := q
            rw [hs] at h
            simp only [Option.some.injEq, Prod.mk.injEq] at h
            obtain ⟨hm, hp, -⟩ := h
            obtain ⟨-, hbval, hcond⟩ := scanMatch_eq_some (lastPt pts) todo pre post f b hs
            subst hm; subst hp
            cases b with
            | true =>
              have hmE : (if true = true then f.rev else f) = f.rev := if_pos rfl
              rw [hmE]
              have hend : sqDist (lastPt f.geometry) (lastPt pts) = 0 :=
                of_decide_eq_true hbval.symm
              unfold adjacencyStep
              rw [if_pos (by rw [Member.firstPt_rev, sqDist_comm]; exact hend)]
            | false =>
              have hmE : (if false = true then f.rev else f) = f := if_neg (by decide)
              rw [hmE]
              have hend : sqDist (lastPt f.geometry) (lastPt pts) ≠ 0 :=
                of_decide_eq_false hbval.symm
              have hfst : sqDist (firstPt f.geometry) (lastPt pts) = 0 :=
                hcond.resolve_right hend
              unfold adjacencyStep
              rw [if_pos (by rw [sqDist_comm]; exact hfst)]

/-! ## Claim theorems -/

/-- What a successful adjacency step can return: the consumed member is the
current member or a later one, possibly reversed; the remaining list keeps
exactly the other members (the swap placing the current member at the found
position); the length is unchanged. -/
theorem adjacencyStep_shape (pts : List Coord) (m : Member) (todo : List Member)
    (mEff : Member) (pts' : List Coord) (todo' : List Member)
    (h : adjacencyStep pts m todo = some (mEff, pts', todo')) :
    (mEff.geometry = m.geometry ∨ mEff.geometry = m.geometry.reverse
      ∨ ∃ f ∈ todo, mEff.geometry = f.geometry ∨ mEff.geometry = f.geometry.reverse)
    ∧ (∀ c ∈ todo', c = m ∨ c ∈ todo)
    ∧ todo'.length = todo.length := by
  unfold adjacencyStep at h
  by_cases h1 : sqDist (lastPt pts) (firstPt m.geometry) = 0
  · rw [if_pos h1] at h
    simp only [Option.some.injEq, Prod.mk.injEq] at h
    obtain ⟨hm, -, ht⟩ := h
    subst hm; subst ht
    exact ⟨Or.inl rfl, fun c hc => Or.inr hc, rfl⟩
  · rw [if_neg h1] at h
    by_cases h2 : sqDist (lastPt pts) (lastPt m.geometry) = 0
    · rw [if_pos h2] at h
      simp only [Option.some.injEq, Prod.mk.injEq] at h
      obtain ⟨hm, -, ht⟩ := h
      subst hm; subst ht
      exact ⟨Or.inr (Or.inl rfl), fun c hc => Or.inr hc, rfl⟩
    · rw [if_neg h2] at h
      by_cases h3 : sqDist (firstPt pts) (firstPt m.geometry) = 0
      · rw [if_pos h3] at h
        simp only [Option.some.injEq, Prod.mk.injEq] at h
        obtain ⟨hm, -, ht⟩ := h
        subst hm; subst ht
        exact ⟨Or.inl rfl, fun c hc => Or.inr hc, rfl⟩
      · rw [if_neg h3] at h
        by_cases h4 : sqDist (firstPt pts) (lastPt m.geometry) = 0
        · rw [if_pos h4] at h
          simp only [Option.some.injEq, Prod.mk.injEq] at h
          obtain ⟨hm, -, ht⟩ := h
          subst hm; subst ht
          exact ⟨Or.inr (Or.inl rfl), fun c hc => Or.inr hc, rfl⟩
        · rw [if_neg h4] at h
          cases hs : scanMatch (lastPt pts) todo with
          | none => rw [hs] at h; cases h
          | some q =>
            obtain ⟨pre, f, b, post⟩ := q
            rw [hs] at h
            simp only [Option.some.injEq, Prod.mk.injEq] at h
            obtain ⟨hm, -, ht⟩ := h
            obtain ⟨hsplit, -, -⟩ := scanMatch_eq_some (lastPt pts) todo pre post f b hs
            subst hm; subst ht
            have hf : f ∈ todo := by
              rw [hsplit]
              exact List.mem_append_right pre (List.mem_cons_self f post)
            refine ⟨Or.inr (Or.inr ⟨f, hf, ?_⟩), ?_, ?_⟩
            · cases b with
              | true => exact Or.inr rfl
              | false => exact Or.inl rfl
            · intro c hc
              rcases List.mem_append.mp hc with hc | hc
              · exact Or.inr (by rw [hsplit]; exact List.mem_append_left _ hc)
              · rcases List.mem_cons.mp hc with rfl | hc
                · exact Or.inl rfl
                · exact Or.inr (by
                    rw [hsplit]
                    exact List.mem_append_right pre (List.mem_cons_of_mem f hc))
            · rw [hsplit]
              simp

/-! ## Step equations and invariants of the member loop -/

theorem goMembers_succ_empty (n : Nat) (s : LoopState) (m : Member) (todo : List Member)
    (hp : s.points = []) :
    goMembers (n + 1) s (m :: todo) =
      ((goMembers n (consumeMember s m) todo).1,
       m :: (goMembers n (consumeMember s m) todo).2.1,
       (goMembers n (consumeMember s m) todo).2.2) := by
  simp [goMembers, hp]

theorem goMembers_succ_adj (n : Nat) (s : LoopState) (m : Member) (todo : List Member)
    (mEff : Member) (pts' : List Coord) (todo' : List Member)
    (hp : s.points ≠ []) (ha : adjacencyStep s.points m todo = some (mEff, pts', todo')) :
    goMembers (n + 1) s (m :: todo) =
      ((goMembers n (consumeMember { s with points := pts' } mEff) todo').1,
       mEff :: (goMembers n (consumeMember { s with points := pts' } mEff) todo').2.1,
       (goMembers n (consumeMember { s with points := pts' } mEff) todo').2.2) := by
  simp [goMembers, hp, ha]

theorem goMembers_succ_skip (n : Nat) (s : LoopState) (m : Member) (todo : List Member)
    (hp : s.points ≠ []) (ha : adjacencyStep s.points m todo = none) :
    goMembers (n + 1) s (m :: todo) =
      ((goMembers n s todo).1, m :: (goMembers n s todo).2.1, (goMembers n s todo).2.2 + 1) := by
  simp [goMembers, hp, ha]

/-- The loop returns as many members as it was given. -/
theorem goMembers_length : ∀ (fuel : Nat) (s : LoopState) (ms : List Member),
    (goMembers fuel s ms).2.1.length = ms.length := by
  intro fuel
  induction fuel with
  | zero => intro s ms; cases ms <;> rfl
  | succ n ih =>
    intro s ms
    cases ms with
    | nil => rfl
    | cons m todo =>
      by_cases hp : s.points = []
      · rw [goMembers_succ_empty n s m todo hp]
        simp [ih]
      · cases ha : adjacencyStep s.points m todo with
        | none =>
          rw [goMembers_succ_skip n s m todo hp ha]
          simp [ih]
        | some q =>
          obtain ⟨mEff, pts', todo'⟩ := q
          rw [goMembers_succ_adj n s m todo mEff pts' todo' hp ha]
          have hlen := (adjacencyStep_shape s.points m todo mEff pts' todo' ha).2.2
          simp [ih, hlen]

/-- Every member coming out of the loop is a member that went in, with its
geometry kept or reversed. -/
theorem goMembers_mem : ∀ (fuel : Nat) (s : LoopState) (ms : List Member),
    ∀ c' ∈ (goMembers fuel s ms).2.1, ∃ c ∈ ms,
      c'.geometry = c.geometry ∨ c'.geometry = c.geometry.reverse := by
  intro fuel
  induction fuel with
  | zero =>
    intro s ms c' hc'
    cases ms with
    | nil => simp [goMembers] at hc'
    | cons m t => exact ⟨c', by simpa [goMembers] using hc', Or.inl rfl⟩
  | succ n ih =>
    intro s ms c' hc'
    cases ms with
    | nil => simp [goMembers] at hc'
    | cons m todo =>
      by_cases hp : s.points = []
      · rw [goMembers_succ_empty n s m todo hp] at hc'
        rcases List.mem_cons.mp hc' with rfl | hmem
        · exact ⟨c', List.mem_cons_self c' todo, Or.inl rfl⟩
        · obtain ⟨c, hc, hg⟩ := ih (consumeMember s m) todo c' hmem
          exact ⟨c, List.mem_cons_of_mem m hc, hg⟩
      · cases ha : adjacencyStep s.points m todo with
        | none =>
          rw [goMembers_succ_skip n s m todo hp ha] at hc'
          rcases List.mem_cons.mp hc' with rfl | hmem
          · exact ⟨c', List.mem_cons_self c' todo, Or.inl rfl⟩
          · obtain ⟨c, hc, hg⟩ := ih s todo c' hmem
            exact ⟨c, List.mem_cons_of_mem m hc, hg⟩
        | some q =>
          obtain ⟨mEff, pts', todo'⟩ := q
          rw [goMembers_succ_adj n s m todo mEff pts' todo' hp ha] at hc'
          obtain ⟨hgeo, htodo, -⟩ := adjacencyStep_shape s.points m todo mEff pts' todo' ha
          rcases List.mem_cons.mp hc' with rfl | hmem
          · rcases hgeo with hg | hg | ⟨f, hf, hg⟩
            · exact ⟨m, List.mem_cons_self m todo, Or.inl hg⟩
            · exact ⟨m, List.mem_cons_self m todo, Or.inr hg⟩
            · exact ⟨f, List.mem_cons_of_mem m hf, hg⟩
          · obtain ⟨c, hc, hg⟩ := ih _ todo' c' hmem
            rcases htodo c hc with rfl | hcin
            · exact ⟨c, List.mem_cons_self c todo, hg⟩
            · exact ⟨c, List.mem_cons_of_mem m hcin, hg⟩

/-- Stability of the member loop: running it again, from the same initial
state, on the members it produced (with their stored reversals and swaps)
reproduces exactly the same state, member list, and skip count. -/
theorem goMembers_stable : ∀ (fuel : Nat) (s : LoopState) (ms : List Member),
    goMembers fuel s (goMembers fuel s ms).2.1 = goMembers fuel s ms := by
  intro fuel
  induction fuel with
  | zero => intro s ms; cases ms <;> rfl
  | succ n ih =>
    intro s ms
    cases ms with
    | nil => rfl
    | cons m todo =>
      by_cases hp : s.points = []
      · rw [goMembers_succ_empty n s m todo hp,
            goMembers_succ_empty n s m (goMembers n (consumeMember s m) todo).2.1 hp,
            ih (consumeMember s m) todo]
      · cases ha : adjacencyStep s.points m todo with
        | none =>
          have hnm := (adjacencyStep_eq_none_iff s.points m todo).mp ha
          rw [goMembers_succ_skip n s m todo hp ha]
          have ha2 : adjacencyStep s.points m (goMembers n s todo).2.1 = none := by
            rw [adjacencyStep_eq_none_iff]
            obtain ⟨n1, n2, n3, n4, nall⟩ := hnm
            refine ⟨n1, n2, n3, n4, ?_⟩
            intro c' hc'
            obtain ⟨c, hc, hg⟩ := goMembers_mem n s todo c' hc'
            obtain ⟨hcf, hcl⟩ := nall c hc
            rcases hg with hg | hg
            · exact ⟨by rw [hg]; exact hcf, by rw [hg]; exact hcl⟩
            · exact ⟨by rw [hg, firstPt_reverse]; exact hcl,
                     by rw [hg, lastPt_reverse]; exact hcf⟩
          rw [goMembers_succ_skip n s m (goMembers n s todo).2.1 hp ha2, ih s todo]
        | some q =>
          obtain ⟨mEff, pts', todo'⟩ := q
          rw [goMembers_succ_adj n s m todo mEff pts' todo' hp ha]
          have ha2 := adjacencyStep_restep s.points m todo mEff pts' todo' ha
            (goMembers n (consumeMember { s with points := pts' } mEff) todo').2.1
          rw [goMembers_succ_adj n s mEff
                (goMembers n (consumeMember { s with points := pts' } mEff) todo').2.1
                mEff pts'
                (goMembers n (consumeMember { s with points := pts' } mEff) todo').2.1
                hp ha2,
              ih (consumeMember { s with points := pts' } mEff) todo']

/-- Stability at the `processMembers` wrapper. -/
theorem processMembers_stable (s : LoopState) (ms : List Member) :
    processMembers s (processMembers s ms).2.1 = processMembers s ms := by
  unfold processMembers
  rw [goMembers_length ms.length s ms]
  exact goMembers_stable ms.length s ms

/-! ## Per-element stability and decomposition of the conversion -/

/-- Injecting the same binding twice is the same as injecting it once. -/
theorem updateTag_idem (t : TagMap) (k : String) (v : TagValue) :
    updateTag (updateTag t k v) k v = updateTag t k v := by
  have hmem : ∃ p ∈ updateTag t k v, p.1 = k := by
    unfold updateTag
    by_cases h : t.any (fun p => p.1 = k)
    · rw [if_pos h]
      obtain ⟨p, hp, hpk⟩ := List.any_eq_true.mp h
      refine ⟨(k, v), List.mem_map.mpr ⟨p, hp, ?_⟩, rfl⟩
      rw [if_pos (of_decide_eq_true hpk)]
    · rw [if_neg h]
      exact ⟨(k, v), List.mem_append_right t (List.mem_cons_self (k, v) []), rfl⟩
  have hfix : ∀ p ∈ updateTag t k v, (if p.1 = k then (k, v) else p) = p := by
    intro p hp
    unfold updateTag at hp
    by_cases h : t.any (fun p => p.1 = k)
    · rw [if_pos h] at hp
      obtain ⟨q, -, rfl⟩ := List.mem_map.mp hp
      by_cases hq : q.1 = k
      · rw [if_pos hq, if_pos rfl]
      · rw [if_neg hq, if_neg hq]
    · rw [if_neg h] at hp
      rcases List.mem_append.mp hp with hp | hp
      · have hq : p.1 ≠ k := by
          intro hq
          exact absurd (List.any_eq_true.mpr ⟨p, hp, decide_eq_true hq⟩) h
        rw [if_neg hq]
      · rcases List.mem_cons.mp hp with rfl | hp
        · rw [if_pos rfl]
        · exact absurd hp (List.not_mem_nil p)
  have hany : (updateTag t k v).any (fun p => p.1 = k) = true := by
    obtain ⟨p, hp, hpk⟩ := hmem
    exact List.any_eq_true.mpr ⟨p, hp, decide_eq_true hpk⟩
  conv_lhs => rw [updateTag]
  rw [if_pos hany]
  calc (updateTag t k v).map (fun p => if p.1 = k then (k, v) else p)
      = (updateTag t k v).map id := List.map_congr_left hfix
    _ = updateTag t k v := List.map_id _

/-- The no-emission branch of `processRelation`, as an equation. -/
theorem processRelation_no_emit (i : Int) (tags : Option TagMap) (ms : List Member)
    (hpg : (processMembers initLoopState ms).1.polygons
        ++ [(processMembers initLoopState ms).1.poly] = [[]]) :
    processRelation i tags ms =
      { features := [], members := (processMembers initLoopState ms).2.1,
        tags := tags, skipped := (processMembers initLoopState ms).2.2 } := by
  simp only [processRelation]
  rw [if_pos hpg]

/-- The emission branch of `processRelation`, as an equation. -/
theorem processRelation_emit (i : Int) (tags : Option TagMap) (ms : List Member)
    (hpg : ¬ (processMembers initLoopState ms).1.polygons
        ++ [(processMembers initLoopState ms).1.poly] = [[]]) :
    processRelation i tags ms =
      { features :=
          ((processMembers initLoopState ms).1.polygons
              ++ [(processMembers initLoopState ms).1.poly]).map
            (fun outerPoly =>
              { id? := none, geometry := Geometry.multiPolygon [outerPoly],
                properties := some (updateTagId (tags.getD []) i) }),
        members := (processMembers initLoopState ms).2.1,
        tags := tags.map (fun t => updateTagId t i),
        skipped := (processMembers initLoopState ms).2.2 } := by
  simp only [processRelation]
  rw [if_neg hpg]

/-- Converting the post-conversion value of one element produces the same
features as converting the element: nodes and ways are untouched, and for a
relation the member loop is stable and the repeated id injection collapses. -/
theorem featuresOf_elemPost (e : Element) : featuresOf (elemPost e) = featuresOf e := by
  cases e with
  | node i lon lat tags => rfl
  | way i g tags => rfl
  | unknown => rfl
  | relation i ms tags =>
    show (processRelation i (processRelation i tags ms).tags
            (processRelation i tags ms).members).features
        = (processRelation i tags ms).features
    by_cases hpg : (processMembers initLoopState ms).1.polygons
        ++ [(processMembers initLoopState ms).1.poly] = [[]]
    · rw [processRelation_no_emit i tags ms hpg]
      have hpg2 : (processMembers initLoopState
            (processMembers initLoopState ms).2.1).1.polygons
          ++ [(processMembers initLoopState
            (processMembers initLoopState ms).2.1).1.poly] = [[]] := by
        rw [processMembers_stable initLoopState ms]
        exact hpg
      rw [processRelation_no_emit i tags (processMembers initLoopState ms).2.1 hpg2]
    · have hpg2 : ¬ (processMembers initLoopState
            (processMembers initLoopState ms).2.1).1.polygons
          ++ [(processMembers initLoopState
            (processMembers initLoopState ms).2.1).1.poly] = [[]] := by
        rw [processMembers_stable initLoopState ms]
        exact hpg
      rw [processRelation_emit i tags ms hpg,
          processRelation_emit i (tags.map (fun t => updateTagId t i))
            (processMembers initLoopState ms).2.1 hpg2,
          processMembers_stable initLoopState ms]
      cases tags with
      | none => rfl
      | some t =>
        simp only [Option.map_some', Option.getD_some, updateTagId]
        rw [updateTag_idem]

/-- Claim C3: converting an elements list twice — the second call running on
the post-first-call value with its stored member reversals, swaps, and
injected id properties — yields structurally identical FeatureCollections. -/
theorem claim_C3_conversion_idempotent (es : List Element) (hwf : WFElems es) :
    asGeojson ((asGeojsonFull es).elements) = asGeojson es := by
  clear hwf
  unfold asGeojson asGeojsonFull
  simp only [List.map_map]
  congr 1
  congr 1
  exact List.map_congr_left (fun e _ => featuresOf_elemPost e)

/-- The elements list of claim C3's witness: a node, a relation whose second
member is stored in reversed orientation, and a way. -/
def exC3 : List Element :=
  [.node 1 (7/2) (41/10) (some [("amenity", .str "cafe")]),
   .relation 3
     [⟨"outer", [⟨0, 0⟩, ⟨1, 0⟩]⟩,
      ⟨"outer", [⟨1, 1⟩, ⟨1, 0⟩]⟩,
      ⟨"outer", [⟨1, 1⟩, ⟨0, 0⟩]⟩]
     (some [("landuse", .str "park")]),
   .way 4 [⟨2, 2⟩, ⟨3, 3⟩] none]

/-- Witness for claim C3 at a concrete well-formed input. -/
theorem claim_C3_witness :
    WFElems exC3 ∧ asGeojson ((asGeojsonFull exC3).elements) = asGeojson exC3 :=
  ⟨by with_unfolding_all decide,
   claim_C3_conversion_idempotent exC3 (by with_unfolding_all decide)⟩

/-- Claim C7: the mutation performed during ring assembly is local to the
relation being converted — the post-conversion elements list is a
per-element map of the input (element `i`'s post value depends on element
`i` alone), and every non-relation element is returned unchanged. -/
theorem claim_C7_mutation_is_local (es : List Element) :
    (asGeojsonFull es).elements = es.map elemPost
    ∧ ∀ e : Element, (∀ i ms t, e ≠ .relation i ms t) → elemPost e = e := by
  constructor
  · show (es.map elemConvert).map ElemOut.post = es.map elemPost
    rw [List.map_map]
    rfl
  · intro e h
    cases e with
    | node i lon lat tags => rfl
    | way i g tags => rfl
    | unknown => rfl
    | relation i ms t => exact absurd rfl (h i ms t)

/-- The node of claim C7's witness. -/
def exC7 : Element := .node 11 (5/4) (9/8) (some [("shop", .str "retail")])

/-- Witness for claim C7 at a concrete list and a concrete non-relation
element. -/
theorem claim_C7_witness :
    (asGeojsonFull [exC7]).elements = [exC7].map elemPost ∧ elemPost exC7 = exC7 :=
  ⟨(claim_C7_mutation_is_local [exC7]).1,
   (claim_C7_mutation_is_local [exC7]).2 exC7 (fun i ms t h => Element.noConfusion h)⟩

/-! ## The ring-closure invariant -/

/-- A closed ring: non-empty, with the first coordinate equal to the last. -/
def ClosedRing (r : Ring) : Prop := r ≠ [] ∧ r.head? = r.getLast?

/-- Invariant of the relation loop: every ring already committed to `poly` or
to a polygon group of `polygons` is closed. -/
def InvPoly (s : LoopState) : Prop :=
  (∀ g ∈ s.polygons, ∀ r ∈ g, ClosedRing r) ∧ ∀ r ∈ s.poly, ClosedRing r

theorem consumeMember_inv (s : LoopState) (m : Member) (hm : m.geometry ≠ [])
    (h : InvPoly s) : InvPoly (consumeMember s m) := by
  obtain ⟨hpgs, hpl⟩ := h
  have hclosedNew : ∀ (pts0 : List Coord),
      lastPt (pts0 ++ m.geometry) = firstPt (pts0 ++ m.geometry) →
      ClosedRing (pts0 ++ m.geometry) := by
    intro pts0 hcl
    have hne : pts0 ++ m.geometry ≠ [] := fun he => hm (List.append_eq_nil.mp he).2
    exact ⟨hne, by rw [firstPt_eq_head? _ hne, lastPt_eq_getLast? _ hne, hcl]⟩
  have hflushAll : ∀ g ∈ s.polygons ++ [s.poly], ∀ r ∈ g, ClosedRing r := by
    intro g hg
    rcases List.mem_append.mp hg with hg | hg
    · exact hpgs g hg
    · rcases List.mem_cons.mp hg with rfl | hg
      · exact hpl
      · exact absurd hg (List.not_mem_nil g)
  have hsingleton : ∀ (pl : List Ring), (∀ r ∈ pl, ClosedRing r) →
      ∀ (newr : Ring), ClosedRing newr → ∀ r ∈ pl ++ [newr], ClosedRing r := by
    intro pl hplc newr hnew r hr
    rcases List.mem_append.mp hr with hr | hr
    · exact hplc r hr
    · rcases List.mem_cons.mp hr with rfl | hr
      · exact hnew
      · exact absurd hr (List.not_mem_nil r)
  have hniln : ∀ r ∈ ([] : List Ring), ClosedRing r := fun r hr => absurd hr (List.not_mem_nil r)
  unfold consumeMember
  by_cases ho : m.role = "outer"
  · have hi : ¬ m.role = "inner" := by rw [ho]; decide
    simp only [if_pos ho, if_neg hi]
    split_ifs
    all_goals
      refine ⟨?_, ?_⟩ <;>
        first
        | exact hflushAll
        | exact hpgs
        | exact hniln
        | exact hpl
        | exact hsingleton [] hniln _ (hclosedNew [] (by assumption))
        | exact hsingleton s.poly hpl _ (hclosedNew [] (by assumption))
        | exact hsingleton [] hniln _ (hclosedNew s.points (by assumption))
        | exact hsingleton s.poly hpl _ (hclosedNew s.points (by assumption))
  · simp only [if_neg ho]
    by_cases hi : m.role = "inner"
    · simp only [if_pos hi]
      split_ifs with h1
      · exact ⟨hpgs, hsingleton s.poly hpl _ (hclosedNew s.points h1)⟩
      · exact ⟨hpgs, hpl⟩
    · simp only [if_neg hi]
      exact ⟨hpgs, hpl⟩

/-- The loop preserves the closure invariant, provided every member carries a
non-empty geometry. -/
theorem goMembers_inv : ∀ (fuel : Nat) (s : LoopState) (ms : List Member),
    InvPoly s → (∀ m ∈ ms, m.geometry ≠ []) → InvPoly (goMembers fuel s ms).1 := by
  intro fuel
  induction fuel with
  | zero => intro s ms h hwf; cases ms <;> exact h
  | succ n ih =>
    intro s ms h hwf
    cases ms with
    | nil => exact h
    | cons m todo =>
      by_cases hp : s.points = []
      · rw [goMembers_succ_empty n s m todo hp]
        exact ih (consumeMember s m) todo
          (consumeMember_inv s m (hwf m (List.mem_cons_self m todo)) h)
          (fun c hc => hwf c (List.mem_cons_of_mem m hc))
      · cases ha : adjacencyStep s.points m todo with
        | none =>
          rw [goMembers_succ_skip n s m todo hp ha]
          exact ih s todo h (fun c hc => hwf c (List.mem_cons_of_mem m hc))
        | some q =>
          obtain ⟨mEff, pts', todo'⟩ := q
          rw [goMembers_succ_adj n s m todo mEff pts' todo' hp ha]
          obtain ⟨hgeo, htodo, -⟩ := adjacencyStep_shape s.points m todo mEff pts' todo' ha
          have hmEff : mEff.geometry ≠ [] := by
            rcases hgeo with hg | hg | ⟨f, hf, hg⟩
            · rw [hg]; exact hwf m (List.mem_cons_self m todo)
            · rw [hg]
              intro he
              exact hwf m (List.mem_cons_self m todo) (List.reverse_eq_nil_iff.mp he)
            · rcases hg with hg | hg
              · rw [hg]; exact hwf f (List.mem_cons_of_mem m hf)
              · rw [hg]
                intro he
                exact hwf f (List.mem_cons_of_mem m hf) (List.reverse_eq_nil_iff.mp he)
          have hinv' : InvPoly { s with points := pts' } := ⟨h.1, h.2⟩
          exact ih (consumeMember { s with points := pts' } mEff) todo'
            (consumeMember_inv _ mEff hmEff hinv')
            (fun c hc => by
              rcases htodo c hc with rfl | hc
              · exact hwf c (List.mem_cons_self c todo)
              · exact hwf c (List.mem_cons_of_mem m hc))

/-- The produced features are the concatenation of the per-element features,
in input order. -/
theorem asGeojson_features (es : List Element) :
    (asGeojson es).features = (es.map featuresOf).flatten := by
  show ((es.map elemConvert).map ElemOut.features).flatten = (es.map featuresOf).flatten
  rw [List.map_map]
  rfl

/-- Claim C1: in any FeatureCollection produced by the converter from a
well-formed elements list, every ring inside any MultiPolygon feature (these
are exactly the relation-derived features) is closed: non-empty with first
coordinate equal to last.  An in-progress point sequence is only ever
committed as a ring at the `points[-1] == points[0]` checks. -/
theorem claim_C1_rings_closed (es : List Element) (hwf : WFElems es) :
    ∀ f ∈ (asGeojson es).features, ∀ polys, f.geometry = Geometry.multiPolygon polys →
      ∀ g ∈ polys, ∀ r ∈ g, r ≠ [] ∧ r.head? = r.getLast? := by
  intro f hf polys hpolys g hg r hr
  rw [asGeojson_features] at hf
  obtain ⟨l, hl, hfl⟩ := List.mem_flatten.mp hf
  obtain ⟨e, he, rfl⟩ := List.mem_map.mp hl
  cases e with
  | node i lon lat tags =>
    have hfeq : f = { id? := some i, geometry := .point ⟨lon, lat⟩, properties := tags } := by
      simpa [featuresOf, elemConvert] using hfl
    rw [hfeq] at hpolys
    exact Geometry.noConfusion hpolys
  | way i geo tags =>
    have hfeq : f = { id? := some i, geometry := .lineString geo, properties := tags } := by
      simpa [featuresOf, elemConvert] using hfl
    rw [hfeq] at hpolys
    exact Geometry.noConfusion hpolys
  | unknown => simp [featuresOf, elemConvert] at hfl
  | relation i ms tags =>
    obtain ⟨hms, -⟩ := hwf (.relation i ms tags) he
    have hfl' : f ∈ (processRelation i tags ms).features := hfl
    by_cases hpg : (processMembers initLoopState ms).1.polygons
        ++ [(processMembers initLoopState ms).1.poly] = [[]]
    · rw [processRelation_no_emit i tags ms hpg] at hfl'
      exact absurd hfl' (List.not_mem_nil f)
    · rw [processRelation_emit i tags ms hpg] at hfl'
      obtain ⟨op, hop, rfl⟩ := List.mem_map.mp hfl'
      have hpolyseq : [op] = polys := by
        injection hpolys
      have hinv : InvPoly (processMembers initLoopState ms).1 :=
        goMembers_inv ms.length initLoopState ms
          ⟨fun g hg => absurd hg (List.not_mem_nil g),
           fun r hr => absurd hr (List.not_mem_nil r)⟩ hms
      have hgop : g = op := by
        rw [← hpolyseq] at hg
        rcases List.mem_cons.mp hg with rfl | hg
        · rfl
        · exact absurd hg (List.not_mem_nil g)
      have hclosed : ClosedRing r := by
        subst hgop
        rcases List.mem_append.mp hop with hop | hop
        · exact hinv.1 g hop r hr
        · rcases List.mem_cons.mp hop with rfl | hop
          · exact hinv.2 r hr
          · exact absurd hop (List.not_mem_nil g)
      exact hclosed

/-- The elements list of claim C1's witness: a relation needing a member
reversal, producing one closed square ring. -/
def exC1 : List Element :=
  [.relation 5
     [⟨"outer", [⟨0, 0⟩, ⟨1, 0⟩]⟩,
      ⟨"outer", [⟨1, 1⟩, ⟨1, 0⟩]⟩,
      ⟨"inner", [⟨1, 1⟩, ⟨0, 0⟩]⟩]
     (some [("natural", .str "water")])]

/-- Witness for claim C1 at a concrete well-formed input. -/
theorem claim_C1_witness :
    WFElems exC1
    ∧ (∀ f ∈ (asGeojson exC1).features, ∀ polys,
        f.geometry = Geometry.multiPolygon polys →
        ∀ g ∈ polys, ∀ r ∈ g, r ≠ [] ∧ r.head? = r.getLast?) :=
  ⟨by with_unfolding_all decide,
   claim_C1_rings_closed exC1 (by with_unfolding_all decide)⟩

/-- Features split over list concatenation: elements are converted
independently, in order. -/
theorem asGeojson_features_append (xs ys : List Element) :
    (asGeojson (xs ++ ys)).features = (asGeojson xs).features ++ (asGeojson ys).features := by
  rw [asGeojson_features, asGeojson_features, asGeojson_features,
      List.map_append, List.flatten_append]

/-- Claim C2: a member reached with a ring in progress that matches nowhere
(not as-is, not reversed, not against the reversed accumulated points, and at
no remaining member's endpoint) is skipped: the unmatched counter increments,
the loop state and the member are left untouched, and processing continues
with the remaining members; moreover the conversion of any element is
unaffected by the elements around it, so every other element still produces
its features and the conversion as a whole never fails. -/
theorem claim_C2_unmatched_member_skipped (s : LoopState) (m : Member)
    (todo : List Member) (hp : s.points ≠ []) (hnm : NoAdjMatch s.points m todo) :
    processMembers s (m :: todo)
      = ((processMembers s todo).1, m :: (processMembers s todo).2.1,
         (processMembers s todo).2.2 + 1)
    ∧ ∀ (pre post : List Element) (e : Element),
        (asGeojson (pre ++ e :: post)).features
          = (asGeojson pre).features ++ featuresOf e ++ (asGeojson post).features := by
  constructor
  · have ha : adjacencyStep s.points m todo = none :=
      (adjacencyStep_eq_none_iff s.points m todo).mpr hnm
    show goMembers (m :: todo).length s (m :: todo) = _
    rw [List.length_cons, goMembers_succ_skip todo.length s m todo hp ha]
    rfl
  · intro pre post e
    rw [asGeojson_features_append, asGeojson_features (e :: post), List.map_cons,
        List.flatten_cons, ← asGeojson_features post, List.append_assoc]

/-- Loop state of claim C2's witness: an unclosed outer ring in progress. -/
def exC2State : LoopState :=
  { polygons := [], poly := [], points := [⟨5, 5⟩, ⟨6, 5⟩], prev := "outer", notFirst := true }

/-- The unmatched member of claim C2's witness. -/
def exC2Member : Member := ⟨"outer", [⟨9, 9⟩, ⟨8, 8⟩]⟩

/-- A neighbouring node element for claim C2's witness. -/
def exC2Node : Element := .node 21 (1/4) (3/4) none

/-- A relation with an unmatched member for claim C2's witness. -/
def exC2Rel : Element :=
  .relation 22
    [⟨"outer", [⟨0, 0⟩, ⟨1, 0⟩, ⟨0, 1⟩, ⟨0, 0⟩]⟩,
     ⟨"outer", [⟨5, 5⟩, ⟨6, 5⟩]⟩,
     ⟨"outer", [⟨9, 9⟩, ⟨8, 8⟩]⟩]
    (some [("leisure", .str "park")])

/-- Witness for claim C2 at a concrete state, member, and element list. -/
theorem claim_C2_witness :
    (exC2State.points ≠ [] ∧ NoAdjMatch exC2State.points exC2Member [])
    ∧ processMembers exC2State [exC2Member]
      = ((processMembers exC2State []).1,
         exC2Member :: (processMembers exC2State []).2.1,
         (processMembers exC2State []).2.2 + 1)
    ∧ (asGeojson ([exC2Node] ++ exC2Rel :: [])).features
      = (asGeojson [exC2Node]).features ++ featuresOf exC2Rel ++ (asGeojson []).features :=
  ⟨⟨by with_unfolding_all decide, by with_unfolding_all decide⟩,
   (claim_C2_unmatched_member_skipped exC2State exC2Member []
     (by with_unfolding_all decide) (by with_unfolding_all decide)).1,
   (claim_C2_unmatched_member_skipped exC2State exC2Member []
     (by with_unfolding_all decide) (by with_unfolding_all decide)).2
     [exC2Node] [] exC2Rel⟩

/-! ## Claim theorems -/

/-- Claim C4: the claim states that for fragment `node[shop=retail]` the json
format yields `[out:json];node[shop=retail];out body;` and the geojson format
yields `[out:json];node[shop=retail];out body geom;`.  The code trims and
terminates the fragment as claimed, but its geojson template
(`_GEOJSON_QUERY_TEMPLATE`, api.py line 35) splices the `verbosity` argument
unchanged — with the default verbosity `body` the geojson output is
`out body;`, not `out body geom;`, contradicting the repository's own test
(`test_construct_query_1`) and leaving geojson responses without the
geometry data `_as_geojson` requires. -/
theorem claim_C4_geojson_lacks_geom :
    construct_ql_query "node[shop=retail]" "json" "body"
      = "[out:json];node[shop=retail];out body;"
    ∧ construct_ql_query "node[shop=retail]  " "json" "body"
      = "[out:json];node[shop=retail];out body;"
    ∧ construct_ql_query "node[shop=retail];" "json" "body"
      = "[out:json];node[shop=retail];out body;"
    ∧ construct_ql_query "node[shop=retail]" "geojson" "body"
      = "[out:json];node[shop=retail];out body;"
    ∧ construct_ql_query "node[shop=retail]" "geojson" "body"
      ≠ "[out:json];node[shop=retail];out body geom;" := by
  with_unfolding_all decide

/-- Claim C5: the claim states that a timeout fails with the configured
timeout value and a 504 carries the timeout value.  The code raises
`TimeoutError(self._timeout)` and `ServerLoadError(self._timeout)`
(api.py lines 150, 160) where `self._timeout` is the class attribute 25,
while `__init__` stores the configured value in `self.timeout` only
(api.py line 40): with a configured timeout of 5 both errors carry 25.
The status-code mapping itself (200/400/429/504/other) is as claimed. -/
theorem claim_C5_timeout_payload_is_class_default :
    get_from_overpass ⟨5⟩ "q" .timeout = .error (.TimeoutError 25)
    ∧ get_from_overpass ⟨5⟩ "q" .timeout ≠ .error (.TimeoutError 5)
    ∧ get_from_overpass ⟨5⟩ "q" (.response 504 "b") = .error (.ServerLoadError 25)
    ∧ get_from_overpass ⟨5⟩ "q" (.response 504 "b") ≠ .error (.ServerLoadError 5)
    ∧ get_from_overpass ⟨5⟩ "q" (.response 400 "b") = .error (.OverpassSyntaxError "q")
    ∧ get_from_overpass ⟨5⟩ "q" (.response 429 "b") = .error .MultipleRequestsError
    ∧ get_from_overpass ⟨5⟩ "q" (.response 418 "b")
        = .error (.UnknownOverpassError "The request returned status code 418")
    ∧ get_from_overpass ⟨5⟩ "q" (.response 200 "BODY") = .ok "BODY" := by
  with_unfolding_all decide

/-- Claim C6: with build enabled, on the json path a response without a
top-level `elements` key fails with the invalid-response error (realized as
`UnknownOverpassError` with the invalid-answer message, api.py line 98); a
`remark` starting with "runtime error" fails with `ServerRuntimeError`
carrying the remark (api.py lines 101-103); a response with `elements` and no
such remark passes validation. -/
theorem claim_C6_json_validation (fmt : String) (resp : OverpassResponse) :
    (resp.elements = none →
      get_json_body fmt true resp
        = .error (.UnknownOverpassError "Received an invalid answer from Overpass."))
    ∧ (∀ es r, resp.elements = some es → resp.remark = some r →
        strStartsWith r "runtime error" = true →
        get_json_body fmt true resp = .error (.ServerRuntimeError r))
    ∧ (∀ es, resp.elements = some es →
        (∀ r, resp.remark = some r → strStartsWith r "runtime error" = false) →
        ∃ v, get_json_body fmt true resp = .ok v) := by
  refine ⟨?_, ?_, ?_⟩
  · intro h
    simp [get_json_body, h]
  · intro es r he hr hs
    have hne : r ≠ "" := by
      intro h0
      rw [h0] at hs
      exact absurd hs (by with_unfolding_all decide)
    simp [get_json_body, he, hr, hs, hne]
  · intro es he hrem
    cases hr : resp.remark with
    | none =>
      by_cases hf : fmt = "geojson" <;>
        simp [get_json_body, he, hr, hf]
    | some r =>
      have hs := hrem r hr
      by_cases hf : fmt = "geojson" <;>
        simp [get_json_body, he, hr, hs, hf]

/-- Witness for claim C6 at concrete responses. -/
theorem claim_C6_witness :
    get_json_body "json" true ⟨none, none⟩
      = .error (.UnknownOverpassError "Received an invalid answer from Overpass.")
    ∧ get_json_body "json" true ⟨some [], some "runtime error: oom"⟩
      = .error (.ServerRuntimeError "runtime error: oom")
    ∧ ∃ v, get_json_body "geojson" true ⟨some [], none⟩ = .ok v :=
  ⟨(claim_C6_json_validation "json" ⟨none, none⟩).1 rfl,
   (claim_C6_json_validation "json" ⟨some [], some "runtime error: oom"⟩).2.1
     [] "runtime error: oom" rfl rfl (by with_unfolding_all decide),
   (claim_C6_json_validation "geojson" ⟨some [], none⟩).2.2
     [] rfl (fun r hr => by cases hr)⟩

/-- Claim C8 (spec-modelled): with an area id set, every top-level selector
clause of the fragment gains `(area:<id>)` before its terminator, in place,
and the full build wraps the already-rewritten fragment. -/
theorem claim_C8_area_injection (areaId : Nat) (clauses : List String)
    (verbosity : String) (i : Nat) (c : String)
    (hc : clauses.get? i = some c) (hsel : isSelectorClause c = true) :
    (injectArea areaId clauses).get? i
      = some (c ++ "(area:" ++ toString areaId ++ ")")
    ∧ buildQueryWithArea areaId clauses verbosity
      = wrapQuery (joinClauses (injectArea areaId clauses)) verbosity := by
  constructor
  · rw [List.get?_eq_getElem?] at hc
    simp [injectArea, List.getElem?_map, hc, hsel]
  · rfl

/-- Witness for claim C8 at the repository's own test fragment and area id
(src/tests/test_api.py lines 26-30): the built query is exactly the string
the test expects. -/
theorem claim_C8_witness :
    (["node[shop=retail]"].get? 0 = some "node[shop=retail]"
      ∧ isSelectorClause "node[shop=retail]" = true)
    ∧ (injectArea 3600392915 ["node[shop=retail]"]).get? 0
        = some ("node[shop=retail]" ++ "(area:" ++ toString (3600392915 : Nat) ++ ")")
    ∧ buildQueryWithArea 3600392915 ["node[shop=retail]"] "body geom"
        = "[out:json];node[shop=retail](area:3600392915);out body geom;" :=
  ⟨⟨rfl, by with_unfolding_all decide⟩,
   (claim_C8_area_injection 3600392915 ["node[shop=retail]"] "body geom" 0
     "node[shop=retail]" rfl (by with_unfolding_all decide)).1,
   by with_unfolding_all decide⟩

/-- Claim C9 counterexample: the claim states that a lookup whose result list
has no entry with importance at or above the 0.8 threshold fails with the
geocode error; the code (helpers.py lines 17-20) instead falls through the
loop and returns the empty dict — modelled as `none`, not an error. -/
theorem claim_C9_counterexample :
    Nominatim.lookup [⟨1/2, 392915⟩] = none := by
  with_unfolding_all decide

/-- Claim C9 (amended): a lookup whose result list contains no entry with
importance at or above `min_confidence` returns the empty result, without
failing. -/
theorem claim_C9_low_confidence_returns_empty (results : List NominatimResult)
    (h : ∀ r ∈ results, r.importance < Nominatim.min_confidence) :
    Nominatim.lookup results = none := by
  induction results with
  | nil => rfl
  | cons r rest ih =>
    have hr := h r (List.mem_cons_self r rest)
    simp only [Nominatim.lookup, if_neg (not_le.mpr hr)]
    exact ih (fun x hx => h x (List.mem_cons_of_mem r hx))

/-- Witness for claim C9 at a concrete low-importance result list. -/
theorem claim_C9_witness :
    (∀ r ∈ [(⟨1/2, 392915⟩ : NominatimResult)], r.importance < Nominatim.min_confidence)
    ∧ Nominatim.lookup [⟨1/2, 392915⟩] = none :=
  ⟨by with_unfolding_all decide,
   claim_C9_low_confidence_returns_empty [⟨1/2, 392915⟩] (by with_unfolding_all decide)⟩

/-- The relation input of claim C10: a closed outer ring, then an outer
member that does not close, then a member with no adjacency match anywhere. -/
def relC10 : Element :=
  .relation 7
    [⟨"outer", [⟨0, 0⟩, ⟨1, 0⟩, ⟨0, 1⟩, ⟨0, 0⟩]⟩,
     ⟨"outer", [⟨5, 5⟩, ⟨6, 5⟩]⟩,
     ⟨"outer", [⟨9, 9⟩, ⟨8, 8⟩]⟩]
    (some [("name", .str "x")])

/-- Claim C10: on this input the converter emits, besides the feature for the
closed ring, a second MultiPolygon feature whose coordinates hold an empty
polygon group (zero rings), because the guard at api.py line 301 only
suppresses emission when `polygons` is exactly `[[]]`; the skipped member is
counted in `no_match_count`. -/
theorem claim_C10_empty_polygon_group_emitted :
    (asGeojson [relC10]).features.length = 2
    ∧ (asGeojson [relC10]).features.get? 0
      = some { id? := none,
               geometry := .multiPolygon [[[⟨0, 0⟩, ⟨1, 0⟩, ⟨0, 1⟩, ⟨0, 0⟩]]],
               properties := some [("name", .str "x"), ("id", .num 7)] }
    ∧ (asGeojson [relC10]).features.get? 1
      = some { id? := none,
               geometry := .multiPolygon [[]],
               properties := some [("name", .str "x"), ("id", .num 7)] }
    ∧ (asGeojsonFull [relC10]).skipped = 1 := by
  with_unfolding_all decide

end Overpass
